import Mathlib

/-!
Verification of the ore-alt-client repository.

Shallow embedding of the account decoders, PDA seed serialization and the
page's data-fetching effect (src/frontend/lib/accounts.ts, src/frontend/lib/types.ts,
and the page component in src/unnamed/part_000).

Byte buffers are modeled as List Nat (each entry one byte).  Node Buffer reads
(readBigUInt64LE) are bounds-checked and raise a range error past the end of
the buffer, which we model with an Except monad; Buffer.subarray clamps and
never throws, which we model with drop/take.  The base58 rendering performed
by PublicKey.toString is implemented directly (fuel-based digit extraction so
that everything evaluates by rfl / decide).
-/

namespace OreClient

/-- Value of a little-endian byte list (least significant byte first). -/
def leValue : List Nat → Nat
  | [] => 0
  | b :: bs => b + 256 * leValue bs

/-- The 8 little-endian bytes of a 64-bit value, as written by writeBigUInt64LE. -/
def u64le (n : Nat) : List Nat :=
  [n % 256, n / 256 % 256, n / 256 ^ 2 % 256, n / 256 ^ 3 % 256,
   n / 256 ^ 4 % 256, n / 256 ^ 5 % 256, n / 256 ^ 6 % 256, n / 256 ^ 7 % 256]

/-- The 4 little-endian bytes of a 32-bit value, as written by Buffer.writeUInt32LE. -/
def u32le (n : Nat) : List Nat :=
  [n % 256, n / 256 % 256, n / 256 ^ 2 % 256, n / 256 ^ 3 % 256]

/-- Errors thrown by the JavaScript code: ERR_OUT_OF_RANGE range errors from
Buffer reads/writes, and ordinary Error objects carrying a message string. -/
inductive JsError
  | rangeError
  | error (msg : String)
deriving DecidableEq, Repr

/-- The message observed by the page's catch block (err.message). -/
def JsError.message : JsError → String
  | .rangeError => "The value of offset is out of range"
  | .error msg => msg

/-- Node Buffer.readBigUInt64LE: requires offset + 8 <= length, otherwise
throws ERR_OUT_OF_RANGE. -/
def readBigUInt64LE (data : List Nat) (offset : Nat) : Except JsError Nat :=
  if offset + 8 ≤ data.length then .ok (leValue ((data.drop offset).take 8))
  else .error .rangeError

/-- The for-loops in fetchRound (accounts.ts:126-129, 137-140): read n
consecutive u64 values starting at the given offset. -/
def readU64Array (data : List Nat) (offset : Nat) : Nat → Except JsError (List Nat)
  | 0 => .ok []
  | n + 1 =>
    (readBigUInt64LE data offset).bind fun v =>
      (readU64Array data (offset + 8) n).bind fun rest => .ok (v :: rest)

/-- The bs58 alphabet used by PublicKey.toString. -/
def base58Alphabet : List Char :=
  "123456789ABCDEFGHJKLMNPQRSTUVWXYZabcdefghijkmnopqrstuvwxyz".toList

/-- Little-endian base-58 digits of n, with explicit fuel (structural
recursion so the kernel can evaluate it). 64 digits of fuel cover any
256-bit value. -/
def natToDigits58 : Nat → Nat → List Nat
  | 0, _ => []
  | _ + 1, 0 => []
  | fuel + 1, n + 1 => (n + 1) % 58 :: natToDigits58 fuel ((n + 1) / 58)

/-- Big-endian base-256 value of a byte list, as computed by BN(bytes) inside
the PublicKey constructor. -/
def beValue (bytes : List Nat) : Nat := Nat.ofDigits 256 bytes.reverse

/-- PublicKey(bytes).toString() from web3.js: zero-pad to 32 bytes on the
left (PublicKey.toBuffer), then bs58-encode: one '1' per leading zero byte,
then the base-58 digits of the big-endian value, most significant first. -/
def pubkeyToString (bytes : List Nat) : String :=
  let padded := List.replicate (32 - bytes.length) 0 ++ bytes
  let n := beValue padded
  let digitsBE := (natToDigits58 64 n).reverse
  let chars := digitsBE.map fun d => base58Alphabet.getD d '?'
  let zeros := (padded.takeWhile fun b => b == 0).length
  String.mk (List.replicate zeros '1' ++ chars)

/-- Board structure from lib/types.ts (three u64 fields). -/
structure Board where
  roundId : Nat
  startSlot : Nat
  endSlot : Nat
deriving DecidableEq, Repr

/-- Round structure from lib/types.ts.  rentPayer and topMiner are kept as
the base58 strings produced by PublicKey.toString, exactly as in the source. -/
structure Round where
  id : Nat
  deployed : List Nat
  slotHash : List Nat
  count : List Nat
  expiresAt : Nat
  motherlode : Nat
  rentPayer : String
  topMiner : String
  topMinerReward : Nat
  totalDeployed : Nat
  totalVaulted : Nat
  totalWinnings : Nat
deriving DecidableEq, Repr

/-- The decode part of fetchBoard (accounts.ts:64-88): length guard, skip the
8-byte discriminator, then three u64 reads at offsets 8, 16, 24. -/
def decodeBoard (data : List Nat) : Except JsError Board :=
  if data.length < 8 then .error (.error "Invalid Board account data")
  else
    (readBigUInt64LE data 8).bind fun roundId =>
    (readBigUInt64LE data 16).bind fun startSlot =>
    (readBigUInt64LE data 24).bind fun endSlot =>
    .ok { roundId := roundId, startSlot := startSlot, endSlot := endSlot }

/-- The decode part of fetchRound (accounts.ts:109-190): length guard, skip
the 8-byte discriminator, then the fields in source order.  The running
offset of the source is flattened to the literal offsets it reaches:
id at 8, deployed at 16..216, slotHash slice 216..248, count at 248..448,
expiresAt at 448, motherlode at 456, rentPayer slice 464..496, topMiner
slice 496..528, then four u64 reads at 528, 536, 544, 552. -/
def decodeRound (data : List Nat) : Except JsError Round :=
  if data.length < 8 then .error (.error "Invalid Round account data")
  else
    (readBigUInt64LE data 8).bind fun id =>
    (readU64Array data 16 25).bind fun deployed =>
    let slotHash := (data.drop 216).take 32
    (readU64Array data 248 25).bind fun count =>
    (readBigUInt64LE data 448).bind fun expiresAt =>
    (readBigUInt64LE data 456).bind fun motherlode =>
    let rentPayer := pubkeyToString ((data.drop 464).take 32)
    let topMiner := pubkeyToString ((data.drop 496).take 32)
    (readBigUInt64LE data 528).bind fun topMinerReward =>
    (readBigUInt64LE data 536).bind fun totalDeployed =>
    (readBigUInt64LE data 544).bind fun totalVaulted =>
    (readBigUInt64LE data 552).bind fun totalWinnings =>
    .ok { id := id, deployed := deployed, slotHash := slotHash, count := count,
          expiresAt := expiresAt, motherlode := motherlode,
          rentPayer := rentPayer, topMiner := topMiner,
          topMinerReward := topMinerReward, totalDeployed := totalDeployed,
          totalVaulted := totalVaulted, totalWinnings := totalWinnings }

/-- Matching encoder for the Board body: the three u64 fields, little-endian,
in declared order (the byte layout fetchBoard reads back). -/
def encodeBoardBody (b : Board) : List Nat :=
  u64le b.roundId ++ u64le b.startSlot ++ u64le b.endSlot

/-- Well-formed Board values: every field fits in 64 bits. -/
def Board.wf (b : Board) : Prop :=
  b.roundId < 2 ^ 64 ∧ b.startSlot < 2 ^ 64 ∧ b.endSlot < 2 ^ 64

/-- Raw field values of a Round as laid out on the wire: identity fields are
the raw 32-byte blocks (the decoder renders them through base58). -/
structure RoundFields where
  id : Nat
  deployed : List Nat
  slotHash : List Nat
  count : List Nat
  expiresAt : Nat
  motherlode : Nat
  rentPayer : List Nat
  topMiner : List Nat
  topMinerReward : Nat
  totalDeployed : Nat
  totalVaulted : Nat
  totalWinnings : Nat
deriving DecidableEq, Repr

/-- Concatenated little-endian encodings of a list of u64 values. -/
def joinU64 (xs : List Nat) : List Nat := (xs.map u64le).flatten

/-- Matching encoder for the Round body: the fields in declared order.
Its length under RoundFields.wf is 8 + 200 + 32 + 200 + 8 + 8 + 32 + 32 +
8 + 8 + 8 + 8 = 552 bytes. -/
def encodeRoundBody (f : RoundFields) : List Nat :=
  u64le f.id ++ joinU64 f.deployed ++ f.slotHash ++ joinU64 f.count ++
  u64le f.expiresAt ++ u64le f.motherlode ++ f.rentPayer ++ f.topMiner ++
  u64le f.topMinerReward ++ u64le f.totalDeployed ++ u64le f.totalVaulted ++
  u64le f.totalWinnings

/-- Well-formed Round field values: u64 fields fit in 64 bits, the two
25-element sequences have length 25, the identity/hash blocks have 32 bytes,
and identity bytes are actual bytes. -/
def RoundFields.wf (f : RoundFields) : Prop :=
  f.id < 2 ^ 64 ∧
  f.deployed.length = 25 ∧ (∀ x ∈ f.deployed, x < 2 ^ 64) ∧
  f.slotHash.length = 32 ∧
  f.count.length = 25 ∧ (∀ x ∈ f.count, x < 2 ^ 64) ∧
  f.expiresAt < 2 ^ 64 ∧ f.motherlode < 2 ^ 64 ∧
  f.rentPayer.length = 32 ∧ (∀ x ∈ f.rentPayer, x < 256) ∧
  f.topMiner.length = 32 ∧ (∀ x ∈ f.topMiner, x < 256) ∧
  f.topMinerReward < 2 ^ 64 ∧ f.totalDeployed < 2 ^ 64 ∧
  f.totalVaulted < 2 ^ 64 ∧ f.totalWinnings < 2 ^ 64

/-- The Round record the decoder produces for given raw field values:
identity fields go through the base58 rendering, everything else is kept. -/
def roundView (f : RoundFields) : Round :=
  { id := f.id, deployed := f.deployed, slotHash := f.slotHash,
    count := f.count, expiresAt := f.expiresAt, motherlode := f.motherlode,
    rentPayer := pubkeyToString f.rentPayer,
    topMiner := pubkeyToString f.topMiner,
    topMinerReward := f.topMinerReward, totalDeployed := f.totalDeployed,
    totalVaulted := f.totalVaulted, totalWinnings := f.totalWinnings }

/-- Equality of Except values is decidable (needed to evaluate decoders in
closed witnesses and counterexamples). -/
instance {ε α : Type} [DecidableEq ε] [DecidableEq α] : DecidableEq (Except ε α) := fun x y =>
  match x, y with
  | .ok a, .ok b => if h : a = b then isTrue (by rw [h]) else isFalse (by simp [h])
  | .error a, .error b => if h : a = b then isTrue (by rw [h]) else isFalse (by simp [h])
  | .ok _, .error _ => isFalse (by simp)
  | .error _, .ok _ => isFalse (by simp)

/-- A concrete 8-byte discriminator tag used by witnesses and counterexamples. -/
def exTag : List Nat := List.replicate 8 0

/-- A second concrete tag, differing from exTag in every byte. -/
def exTag2 : List Nat := List.replicate 8 255

/-- A concrete Board value. -/
def exBoard : Board := { roundId := 8, startSlot := 300, endSlot := 400 }

/-- A concrete Board value pointing at round 7. -/
def exBoard7 : Board := { roundId := 7, startSlot := 100, endSlot := 200 }

/-- A concrete all-zero Round wire image with a given id. -/
def mkRF (i : Nat) : RoundFields :=
  { id := i, deployed := List.replicate 25 0, slotHash := List.replicate 32 0,
    count := List.replicate 25 0, expiresAt := 0, motherlode := 0,
    rentPayer := List.replicate 32 0, topMiner := List.replicate 32 0,
    topMinerReward := 0, totalDeployed := 0, totalVaulted := 0, totalWinnings := 0 }

instance (b : Board) : Decidable b.wf := by unfold Board.wf; infer_instance

instance (f : RoundFields) : Decidable f.wf := by unfold RoundFields.wf; infer_instance

/-- Result of connection.getAccountInfo for one address: account data,
account absent (null), or a thrown network error. -/
inductive FetchResult
  | found (data : List Nat)
  | notFound
  | transientError (msg : String)
deriving Repr

/-- The remote store as seen by the page: the Board account and the Round
account family indexed by round id. -/
structure Store where
  boardAccount : FetchResult
  roundAccount : Nat → FetchResult

/-- fetchBoard (accounts.ts:53-88): null account check, then decode. -/
def fetchBoard (store : Store) : Except JsError Board :=
  match store.boardAccount with
  | .notFound => .error (.error "Board account not found")
  | .transientError msg => .error (.error msg)
  | .found data => decodeBoard data

/-- fetchRound (accounts.ts:98-190): null account check, then decode. -/
def fetchRound (store : Store) (roundId : Nat) : Except JsError Round :=
  match store.roundAccount roundId with
  | .notFound =>
    .error (.error ("Round account not found for round " ++ toString roundId))
  | .transientError msg => .error (.error msg)
  | .found data => decodeRound data

/-- The page component's state (part_000 lines 9-12): the four useState
slots board, round, loading, error. -/
structure AppState where
  board : Option Board
  round : Option Round
  loading : Bool
  error : Option String
deriving DecidableEq, Repr

/-- One run of fetchData (part_000 lines 15-38) from a starting state: the
list of states after each setState call, in order.  setLoading(true) and
setError(null) run first; on fetchBoard success setBoard publishes the new
Board immediately (before the Round fetch); on any thrown error the catch
block records err.message and the finally block clears loading.  Each listed
state is observable by the renderer (the Round fetch in particular suspends
at an await while the new Board is already published). -/
def tickTrace (store : Store) (s0 : AppState) : List AppState :=
  let s1 := { s0 with loading := true }
  let s2 := { s1 with error := none }
  match fetchBoard store with
  | .error e =>
    let s3 := { s2 with error := some e.message }
    let s4 := { s3 with loading := false }
    [s1, s2, s3, s4]
  | .ok boardData =>
    let s3 := { s2 with board := some boardData }
    match fetchRound store boardData.roundId with
    | .error e =>
      let s4 := { s3 with error := some e.message }
      let s5 := { s4 with loading := false }
      [s1, s2, s3, s4, s5]
    | .ok roundData =>
      let s4 := { s3 with round := some roundData }
      let s5 := { s4 with loading := false }
      [s1, s2, s3, s4, s5]

/-- The state at the end of one fetchData run. -/
def tickFinal (store : Store) (s0 : AppState) : AppState :=
  (tickTrace store s0).getLastD s0

/-- A run of the page: its state plus how many fetchData sequences have
been started. -/
structure AppRun where
  state : AppState
  fetchSequences : Nat
deriving Repr

/-- The initial useState values (part_000 lines 9-12): no data, loading, no
error. -/
def initialAppState : AppState :=
  { board := none, round := none, loading := true, error := none }

/-- Mounting the page (part_000 lines 14-41): the effect has an empty
dependency array, so it runs once, calling fetchData() exactly one time.  It
registers no interval, no subscription and no cleanup. -/
def mountApp (store : Store) : AppRun :=
  { state := tickFinal store initialAppState, fetchSequences := 1 }

/-- A timer firing after mount.  The effect registered no interval callback,
so app code does not run and the state is unchanged. -/
def timerStep (r : AppRun) : AppRun := r

/-- The app after n timer firings following the mount. -/
def appAfter (store : Store) : Nat → AppRun
  | 0 => mountApp store
  | n + 1 => timerStep (appAfter store n)

/-- ToInt32 as applied by the JavaScript bitwise-and in getRoundPDA
(accounts.ts:36): reduce mod 2^32, then interpret as a signed 32-bit value.
The model takes the exact integer; it is faithful for inputs below 2^53,
where Number(roundId) is exact. -/
def jsToInt32 (x : Nat) : Int :=
  if x % 4294967296 < 2147483648 then ((x % 4294967296 : Nat) : Int)
  else ((x % 4294967296 : Nat) : Int) - 4294967296

/-- Buffer.writeUInt32LE value checking: throws ERR_OUT_OF_RANGE unless
0 <= value <= 0xffffffff, otherwise writes the 4 little-endian bytes. -/
def writeUInt32LE (value : Int) : Except JsError (List Nat) :=
  if 0 ≤ value ∧ value ≤ 4294967295 then .ok (u32le value.toNat)
  else .error .rangeError

/-- The 8-byte round-id buffer built by getRoundPDA (accounts.ts:32-37):
low word written at offset 0 from (roundIdNum & 0xffffffff), high word
written at offset 4 from Math.floor(roundIdNum / 0x100000000).  Faithful
for roundId < 2^53, where the Number conversion and the float division by
2^32 are exact. -/
def roundIdLEBytes (roundId : Nat) : Except JsError (List Nat) :=
  (writeUInt32LE (jsToInt32 roundId)).bind fun low =>
  (writeUInt32LE ((roundId / 4294967296 : Nat) : Int)).bind fun high =>
  .ok (low ++ high)

/-- The ASCII bytes of the literal seed label "round" (accounts.ts:9). -/
def roundSeed : List Nat := [114, 111, 117, 110, 100]

/-- The seed list passed to findProgramAddressSync by getRoundPDA
(accounts.ts:39-42): the literal label followed by the 8-byte round-id
buffer. -/
def getRoundPDASeeds (roundId : Nat) : Except JsError (List (List Nat)) :=
  (roundIdLEBytes roundId).bind fun idBytes => .ok [roundSeed, idBytes]

/-- calculateTimeRemaining (accounts.ts:210-216): slots remaining as a
(possibly negative) integer, scaled by SECONDS_PER_SLOT, floored, clamped
at zero.  SECONDS_PER_SLOT = 0.4 is modeled as the rational 2/5; the float
value of 0.4 is positive and float multiplication and floor are monotone and
sign-preserving, so the clamp-at-zero behavior is unchanged by this
modeling choice. -/
def calculateTimeRemaining (currentSlot endSlot : Int) : Int :=
  max 0 ⌊((endSlot - currentSlot : Int) : ℚ) * (2 / 5 : ℚ)⌋


/-- A store whose Board account decodes to exBoard (round 8) and whose Round
account for id 8 decodes to roundView (mkRF 8): one fully successful tick. -/
def exStoreOk : Store :=
  { boardAccount := .found (exTag ++ encodeBoardBody exBoard),
    roundAccount := fun i =>
      if i = 8 then .found (exTag ++ encodeRoundBody (mkRF 8)) else .notFound }

/-- A store whose Board fetch succeeds but whose Round fetch throws. -/
def exStoreChildFail : Store :=
  { boardAccount := .found (exTag ++ encodeBoardBody exBoard),
    roundAccount := fun _ => .transientError "network failure" }

/-- A store whose Board fetch throws. -/
def exStoreBoardFail : Store :=
  { boardAccount := .transientError "network failure",
    roundAccount := fun _ => .notFound }

/-- A store returning Parent with cycleId 7 while the Round account at id 7
decodes to a child with id 8: the mismatch scenario of the spec. -/
def exStoreMismatch : Store :=
  { boardAccount := .found (exTag ++ encodeBoardBody exBoard7),
    roundAccount := fun i =>
      if i = 7 then .found (exTag ++ encodeRoundBody (mkRF 8)) else .notFound }

/-- A store with no accounts at all. -/
def exStoreNotFound : Store :=
  { boardAccount := .notFound, roundAccount := fun _ => .notFound }

/-- A previously published snapshot: board for round 7 with its round 7. -/
def exPrior : AppState :=
  { board := some exBoard7, round := some (roundView (mkRF 7)),
    loading := false, error := none }

theorem u64le_length (n : Nat) : (u64le n).length = 8 := rfl

theorem leValue_u64le (n : Nat) (h : n < 2 ^ 64) : leValue (u64le n) = n := by
  simp [u64le, leValue]
  omega

theorem joinU64_cons (x : Nat) (xs : List Nat) :
    joinU64 (x :: xs) = u64le x ++ joinU64 xs := rfl

theorem joinU64_length (xs : List Nat) : (joinU64 xs).length = 8 * xs.length := by
  induction xs with
  | nil => rfl
  | cons x xs ih =>
    rw [joinU64_cons, List.length_append, u64le_length, ih, List.length_cons]
    omega

/-- Reading a u64 right after a prefix of the buffer recovers the encoded value. -/
theorem readBigUInt64LE_at (pre post : List Nat) (n : Nat) (hn : n < 2 ^ 64) :
    readBigUInt64LE (pre ++ (u64le n ++ post)) pre.length = .ok n := by
  unfold readBigUInt64LE
  rw [if_pos (by simp [u64le_length])]
  rw [List.drop_left]
  rw [show ((u64le n ++ post).take 8) = u64le n from by
    rw [show (8 : Nat) = (u64le n).length from rfl]; exact List.take_left _ _]
  rw [leValue_u64le n hn]

/-- Offset-explicit form of readBigUInt64LE_at. -/
theorem read_here (data pre post : List Nat) (n k : Nat)
    (hd : data = pre ++ (u64le n ++ post)) (hk : pre.length = k) (hn : n < 2 ^ 64) :
    readBigUInt64LE data k = .ok n := by
  subst hd; subst hk; exact readBigUInt64LE_at pre post n hn

/-- Reading a u64 array right after a prefix recovers the encoded values. -/
theorem readU64Array_at (xs : List Nat) :
    ∀ (pre post : List Nat), (∀ x ∈ xs, x < 2 ^ 64) →
    readU64Array (pre ++ (joinU64 xs ++ post)) pre.length xs.length = .ok xs := by
  induction xs with
  | nil => intro pre post _; rfl
  | cons x xs ih =>
    intro pre post hlt
    have hx : x < 2 ^ 64 := hlt x (by simp)
    have e1 : pre ++ (joinU64 (x :: xs) ++ post) = pre ++ (u64le x ++ (joinU64 xs ++ post)) := by
      rw [joinU64_cons, List.append_assoc]
    have h1 : readBigUInt64LE (pre ++ (joinU64 (x :: xs) ++ post)) pre.length = .ok x := by
      rw [e1]; exact readBigUInt64LE_at pre (joinU64 xs ++ post) x hx
    have e2 : pre ++ (joinU64 (x :: xs) ++ post) = (pre ++ u64le x) ++ (joinU64 xs ++ post) := by
      rw [joinU64_cons]; simp [List.append_assoc]
    have h2 : readU64Array (pre ++ (joinU64 (x :: xs) ++ post)) (pre.length + 8) xs.length
        = .ok xs := by
      have hl : (pre ++ u64le x).length = pre.length + 8 := by simp [u64le_length]
      rw [e2, ← hl]
      exact ih (pre ++ u64le x) post (fun y hy => hlt y (List.mem_cons_of_mem _ hy))
    rw [List.length_cons]
    unfold readU64Array
    rw [h1, h2]
    rfl

/-- Offset-explicit form of readU64Array_at. -/
theorem readU64_here (data pre post xs : List Nat) (k n : Nat)
    (hd : data = pre ++ (joinU64 xs ++ post)) (hk : pre.length = k) (hn : xs.length = n)
    (hlt : ∀ x ∈ xs, x < 2 ^ 64) :
    readU64Array data k n = .ok xs := by
  subst hd; subst hk; subst hn; exact readU64Array_at xs pre post hlt

/-- A fixed-size opaque slice right after a prefix recovers the encoded block. -/
theorem slice_here (data pre mid post : List Nat) (k m : Nat)
    (hd : data = pre ++ (mid ++ post)) (hk : pre.length = k) (hm : mid.length = m) :
    (data.drop k).take m = mid := by
  subst hd; subst hk; subst hm
  rw [List.drop_left, List.take_left]

theorem encodeBoardBody_length (b : Board) : (encodeBoardBody b).length = 24 := rfl

theorem encodeRoundBody_length (f : RoundFields) (hf : f.wf) :
    (encodeRoundBody f).length = 552 := by
  obtain ⟨_, h2, _, h4, h5, _, _, _, h9, _, h11, _⟩ := hf
  simp [encodeRoundBody, joinU64_length, u64le_length, h2, h4, h5, h9, h11]

/-- Round-trip for the Board decoder: decoding a tagged encoder output
recovers the three u64 fields exactly. -/
theorem decodeBoard_encode (tag : List Nat) (htag : tag.length = 8) (b : Board)
    (hb : b.wf) : decodeBoard (tag ++ encodeBoardBody b) = .ok b := by
  obtain ⟨h1, h2, h3⟩ := hb
  have hdata : tag ++ encodeBoardBody b
      = tag ++ (u64le b.roundId ++ (u64le b.startSlot ++ u64le b.endSlot)) := by
    simp [encodeBoardBody, List.append_assoc]
  have r8 : readBigUInt64LE (tag ++ encodeBoardBody b) 8 = .ok b.roundId :=
    read_here _ tag (u64le b.startSlot ++ u64le b.endSlot) _ 8 hdata htag h1
  have r16 : readBigUInt64LE (tag ++ encodeBoardBody b) 16 = .ok b.startSlot :=
    read_here _ (tag ++ u64le b.roundId) (u64le b.endSlot) _ 16
      (by rw [hdata]; simp [List.append_assoc])
      (by simp [u64le_length, htag]) h2
  have r24 : readBigUInt64LE (tag ++ encodeBoardBody b) 24 = .ok b.endSlot :=
    read_here _ (tag ++ u64le b.roundId ++ u64le b.startSlot) [] _ 24
      (by rw [hdata]; simp [List.append_assoc])
      (by simp [u64le_length, htag]) h3
  have hlen : (tag ++ encodeBoardBody b).length = 32 := by
    simp [encodeBoardBody_length, htag]
  unfold decodeBoard
  rw [if_neg (by omega)]
  rw [r8]
  simp only [Except.bind, r16, r24]

/-- Round-trip for the Round decoder: decoding a tagged encoder output
recovers every field; the two 32-byte identity fields come back as their
base58 rendering (roundView). -/
theorem decodeRound_encode (tag : List Nat) (htag : tag.length = 8) (f : RoundFields)
    (hf : f.wf) : decodeRound (tag ++ encodeRoundBody f) = .ok (roundView f) := by
  obtain ⟨h1, h2, h3, h4, h5, h6, h7, h8, h9, h10, h11, h12, h13, h14, h15, h16⟩ := hf
  have r8 : readBigUInt64LE (tag ++ encodeRoundBody f) 8 = .ok f.id :=
    read_here _ tag
      (joinU64 f.deployed ++ (f.slotHash ++ (joinU64 f.count ++ (u64le f.expiresAt ++
        (u64le f.motherlode ++ (f.rentPayer ++ (f.topMiner ++ (u64le f.topMinerReward ++
        (u64le f.totalDeployed ++ (u64le f.totalVaulted ++ u64le f.totalWinnings))))))))))
      _ 8 (by simp [encodeRoundBody, List.append_assoc]) htag h1
  have rA16 : readU64Array (tag ++ encodeRoundBody f) 16 25 = .ok f.deployed :=
    readU64_here _ (tag ++ u64le f.id)
      (f.slotHash ++ (joinU64 f.count ++ (u64le f.expiresAt ++ (u64le f.motherlode ++
        (f.rentPayer ++ (f.topMiner ++ (u64le f.topMinerReward ++ (u64le f.totalDeployed ++
        (u64le f.totalVaulted ++ u64le f.totalWinnings)))))))))
      f.deployed 16 25 (by simp [encodeRoundBody, List.append_assoc])
      (by simp [u64le_length, htag]) h2 h3
  have sl216 : (((tag ++ encodeRoundBody f).drop 216).take 32) = f.slotHash :=
    slice_here _ (tag ++ u64le f.id ++ joinU64 f.deployed) f.slotHash
      (joinU64 f.count ++ (u64le f.expiresAt ++ (u64le f.motherlode ++ (f.rentPayer ++
        (f.topMiner ++ (u64le f.topMinerReward ++ (u64le f.totalDeployed ++
        (u64le f.totalVaulted ++ u64le f.totalWinnings))))))))
      216 32 (by simp [encodeRoundBody, List.append_assoc])
      (by simp [u64le_length, joinU64_length, htag, h2]) h4
  have rA248 : readU64Array (tag ++ encodeRoundBody f) 248 25 = .ok f.count :=
    readU64_here _ (tag ++ u64le f.id ++ joinU64 f.deployed ++ f.slotHash)
      (u64le f.expiresAt ++ (u64le f.motherlode ++ (f.rentPayer ++ (f.topMiner ++
        (u64le f.topMinerReward ++ (u64le f.totalDeployed ++
        (u64le f.totalVaulted ++ u64le f.totalWinnings)))))))
      f.count 248 25 (by simp [encodeRoundBody, List.append_assoc])
      (by simp [u64le_length, joinU64_length, htag, h2, h4]) h5 h6
  have r448 : readBigUInt64LE (tag ++ encodeRoundBody f) 448 = .ok f.expiresAt :=
    read_here _ (tag ++ u64le f.id ++ joinU64 f.deployed ++ f.slotHash ++ joinU64 f.count)
      (u64le f.motherlode ++ (f.rentPayer ++ (f.topMiner ++ (u64le f.topMinerReward ++
        (u64le f.totalDeployed ++ (u64le f.totalVaulted ++ u64le f.totalWinnings))))))
      _ 448 (by simp [encodeRoundBody, List.append_assoc])
      (by simp [u64le_length, joinU64_length, htag, h2, h4, h5]) h7
  have r456 : readBigUInt64LE (tag ++ encodeRoundBody f) 456 = .ok f.motherlode :=
    read_here _ (tag ++ u64le f.id ++ joinU64 f.deployed ++ f.slotHash ++ joinU64 f.count
        ++ u64le f.expiresAt)
      (f.rentPayer ++ (f.topMiner ++ (u64le f.topMinerReward ++ (u64le f.totalDeployed ++
        (u64le f.totalVaulted ++ u64le f.totalWinnings)))))
      _ 456 (by simp [encodeRoundBody, List.append_assoc])
      (by simp [u64le_length, joinU64_length, htag, h2, h4, h5]) h8
  have sl464 : (((tag ++ encodeRoundBody f).drop 464).take 32) = f.rentPayer :=
    slice_here _ (tag ++ u64le f.id ++ joinU64 f.deployed ++ f.slotHash ++ joinU64 f.count
        ++ u64le f.expiresAt ++ u64le f.motherlode)
      f.rentPayer
      (f.topMiner ++ (u64le f.topMinerReward ++ (u64le f.totalDeployed ++
        (u64le f.totalVaulted ++ u64le f.totalWinnings))))
      464 32 (by simp [encodeRoundBody, List.append_assoc])
      (by simp [u64le_length, joinU64_length, htag, h2, h4, h5]) h9
  have sl496 : (((tag ++ encodeRoundBody f).drop 496).take 32) = f.topMiner :=
    slice_here _ (tag ++ u64le f.id ++ joinU64 f.deployed ++ f.slotHash ++ joinU64 f.count
        ++ u64le f.expiresAt ++ u64le f.motherlode ++ f.rentPayer)
      f.topMiner
      (u64le f.topMinerReward ++ (u64le f.totalDeployed ++
        (u64le f.totalVaulted ++ u64le f.totalWinnings)))
      496 32 (by simp [encodeRoundBody, List.append_assoc])
      (by simp [u64le_length, joinU64_length, htag, h2, h4, h5, h9]) h11
  have r528 : readBigUInt64LE (tag ++ encodeRoundBody f) 528 = .ok f.topMinerReward :=
    read_here _ (tag ++ u64le f.id ++ joinU64 f.deployed ++ f.slotHash ++ joinU64 f.count
        ++ u64le f.expiresAt ++ u64le f.motherlode ++ f.rentPayer ++ f.topMiner)
      (u64le f.totalDeployed ++ (u64le f.totalVaulted ++ u64le f.totalWinnings))
      _ 528 (by simp [encodeRoundBody, List.append_assoc])
      (by simp [u64le_length, joinU64_length, htag, h2, h4, h5, h9, h11]) h13
  have r536 : readBigUInt64LE (tag ++ encodeRoundBody f) 536 = .ok f.totalDeployed :=
    read_here _ (tag ++ u64le f.id ++ joinU64 f.deployed ++ f.slotHash ++ joinU64 f.count
        ++ u64le f.expiresAt ++ u64le f.motherlode ++ f.rentPayer ++ f.topMiner
        ++ u64le f.topMinerReward)
      (u64le f.totalVaulted ++ u64le f.totalWinnings)
      _ 536 (by simp [encodeRoundBody, List.append_assoc])
      (by simp [u64le_length, joinU64_length, htag, h2, h4, h5, h9, h11]) h14
  have r544 : readBigUInt64LE (tag ++ encodeRoundBody f) 544 = .ok f.totalVaulted :=
    read_here _ (tag ++ u64le f.id ++ joinU64 f.deployed ++ f.slotHash ++ joinU64 f.count
        ++ u64le f.expiresAt ++ u64le f.motherlode ++ f.rentPayer ++ f.topMiner
        ++ u64le f.topMinerReward ++ u64le f.totalDeployed)
      (u64le f.totalWinnings)
      _ 544 (by simp [encodeRoundBody, List.append_assoc])
      (by simp [u64le_length, joinU64_length, htag, h2, h4, h5, h9, h11]) h15
  have r552 : readBigUInt64LE (tag ++ encodeRoundBody f) 552 = .ok f.totalWinnings :=
    read_here _ (tag ++ u64le f.id ++ joinU64 f.deployed ++ f.slotHash ++ joinU64 f.count
        ++ u64le f.expiresAt ++ u64le f.motherlode ++ f.rentPayer ++ f.topMiner
        ++ u64le f.topMinerReward ++ u64le f.totalDeployed ++ u64le f.totalVaulted)
      []
      _ 552 (by simp [encodeRoundBody, List.append_assoc])
      (by simp [u64le_length, joinU64_length, htag, h2, h4, h5, h9, h11]) h16
  have hlen : (tag ++ encodeRoundBody f).length = 560 := by
    rw [List.length_append, htag,
      encodeRoundBody_length f
        ⟨h1, h2, h3, h4, h5, h6, h7, h8, h9, h10, h11, h12, h13, h14, h15, h16⟩]
  unfold decodeRound
  rw [if_neg (by omega)]
  rw [r8]
  simp only [Except.bind, rA16, sl216, rA248, r448, r456, sl464, sl496, r528, r536,
    r544, r552, roundView]

/-- No character of the bs58 alphabet at a nonzero index is the character
mapped to digit zero. -/
theorem alph_ne_one : ∀ d, d < 58 → d ≠ 0 → base58Alphabet.getD d '?' ≠ '1' := by decide

theorem alph_inj : ∀ d₁, d₁ < 58 → ∀ d₂, d₂ < 58 →
    base58Alphabet.getD d₁ '?' = base58Alphabet.getD d₂ '?' → d₁ = d₂ := by decide

theorem natToDigits58_lt (fuel : Nat) : ∀ n d, d ∈ natToDigits58 fuel n → d < 58 := by
  induction fuel with
  | zero => intro n d h; simp [natToDigits58] at h
  | succ fuel ih =>
    intro n d h
    match n with
    | 0 => simp [natToDigits58] at h
    | m + 1 =>
      rw [natToDigits58] at h
      rcases List.mem_cons.mp h with h | h
      · subst h; exact Nat.mod_lt _ (by norm_num)
      · exact ih _ d h

theorem ofDigits_natToDigits58 (fuel : Nat) : ∀ n, n < 58 ^ fuel →
    Nat.ofDigits 58 (natToDigits58 fuel n) = n := by
  induction fuel with
  | zero =>
    intro n h
    have : n = 0 := by simpa using h
    subst this; rfl
  | succ fuel ih =>
    intro n h
    match n with
    | 0 => rfl
    | m + 1 =>
      rw [natToDigits58, Nat.ofDigits_cons, ih ((m + 1) / 58)
        (by rw [Nat.div_lt_iff_lt_mul (by norm_num)]; rw [pow_succ] at h; exact h)]
      omega

theorem natToDigits58_getLast (fuel : Nat) : ∀ n, n < 58 ^ fuel → 0 < n →
    ∃ d, (natToDigits58 fuel n).getLast? = some d ∧ d ≠ 0 ∧ d < 58 := by
  induction fuel with
  | zero =>
    intro n h h0
    exfalso
    simp at h
    omega
  | succ fuel ih =>
    intro n h h0
    match n with
    | 0 => exact absurd h0 (by omega)
    | m + 1 =>
      rw [natToDigits58]
      by_cases hq : (m + 1) / 58 = 0
      · have hnil : natToDigits58 fuel ((m + 1) / 58) = [] := by
          rw [hq]; cases fuel <;> rfl
        rw [hnil]
        refine ⟨(m + 1) % 58, rfl, ?_, Nat.mod_lt _ (by norm_num)⟩
        omega
      · obtain ⟨d, hd, hd0, hd58⟩ := ih ((m + 1) / 58)
          (by rw [Nat.div_lt_iff_lt_mul (by norm_num)]; rw [pow_succ] at h; exact h)
          (by omega)
        refine ⟨d, ?_, hd0, hd58⟩
        cases htl : natToDigits58 fuel ((m + 1) / 58) with
        | nil => rw [htl] at hd; simp at hd
        | cons y ys => rw [htl] at hd; rw [List.getLast?_cons_cons]; exact hd

theorem ofDigits_inj (b : Nat) (hb : 1 < b) : ∀ l₁ l₂ : List Nat, l₁.length = l₂.length →
    (∀ x ∈ l₁, x < b) → (∀ x ∈ l₂, x < b) →
    Nat.ofDigits b l₁ = Nat.ofDigits b l₂ → l₁ = l₂ := by
  intro l₁
  induction l₁ with
  | nil =>
    intro l₂ hl _ _ _
    cases l₂ with
    | nil => rfl
    | cons d t => simp at hl
  | cons d₁ t₁ ih =>
    intro l₂ hl hx₁ hx₂ hv
    cases l₂ with
    | nil => simp at hl
    | cons d₂ t₂ =>
      rw [Nat.ofDigits_cons, Nat.ofDigits_cons] at hv
      have hd₁ : d₁ < b := hx₁ d₁ (by simp)
      have hd₂ : d₂ < b := hx₂ d₂ (by simp)
      have hb0 : 0 < b := by omega
      have hdd : d₁ = d₂ := by
        have m1 := congrArg (· % b) hv
        simpa [Nat.add_mul_mod_self_left, Nat.mod_eq_of_lt hd₁, Nat.mod_eq_of_lt hd₂] using m1
      subst hdd
      have ht : Nat.ofDigits b t₁ = Nat.ofDigits b t₂ := by
        have d1 := congrArg (· / b) hv
        simpa [Nat.add_mul_div_left _ _ hb0, Nat.div_eq_of_lt hd₁] using d1
      rw [ih t₂ (by simpa using hl)
        (fun x hx => hx₁ x (List.mem_cons_of_mem _ hx))
        (fun x hx => hx₂ x (List.mem_cons_of_mem _ hx)) ht]

theorem beValue_lt (l : List Nat) (h : ∀ x ∈ l, x < 256) : beValue l < 256 ^ l.length := by
  have := Nat.ofDigits_lt_base_pow_length (b := 256) (l := l.reverse)
    (by norm_num) (by simpa using h)
  simpa [beValue] using this

theorem beValue_inj (l₁ l₂ : List Nat) (hl : l₁.length = l₂.length)
    (h₁ : ∀ x ∈ l₁, x < 256) (h₂ : ∀ x ∈ l₂, x < 256)
    (hv : beValue l₁ = beValue l₂) : l₁ = l₂ := by
  have := ofDigits_inj 256 (by norm_num) l₁.reverse l₂.reverse (by simp [hl])
    (by simpa using h₁) (by simpa using h₂) hv
  have := congrArg List.reverse this
  simpa using this

theorem replicate_cancel (a : Char) : ∀ (z₁ z₂ : Nat) (l₁ l₂ : List Char),
    (∀ c, l₁.head? = some c → c ≠ a) → (∀ c, l₂.head? = some c → c ≠ a) →
    List.replicate z₁ a ++ l₁ = List.replicate z₂ a ++ l₂ → z₁ = z₂ ∧ l₁ = l₂ := by
  intro z₁
  induction z₁ with
  | zero =>
    intro z₂ l₁ l₂ h₁ h₂ he
    cases z₂ with
    | zero => exact ⟨rfl, by simpa using he⟩
    | succ k =>
      exfalso
      rw [List.replicate_succ] at he
      simp only [List.replicate, List.nil_append, List.cons_append] at he
      exact h₁ a (by rw [he]; rfl) rfl
  | succ k ih =>
    intro z₂ l₁ l₂ h₁ h₂ he
    cases z₂ with
    | zero =>
      exfalso
      rw [List.replicate_succ] at he
      simp only [List.replicate, List.nil_append, List.cons_append] at he
      exact h₂ a (by rw [← he]; rfl) rfl
    | succ m =>
      rw [List.replicate_succ, List.replicate_succ] at he
      simp only [List.cons_append] at he
      injection he with _ he'
      obtain ⟨hz, hl⟩ := ih m l₁ l₂ h₁ h₂ he'
      exact ⟨by omega, hl⟩

theorem map_alph_inj : ∀ l₁ l₂ : List Nat, (∀ d ∈ l₁, d < 58) → (∀ d ∈ l₂, d < 58) →
    l₁.map (fun d => base58Alphabet.getD d '?') = l₂.map (fun d => base58Alphabet.getD d '?') →
    l₁ = l₂ := by
  intro l₁
  induction l₁ with
  | nil =>
    intro l₂ _ _ he
    cases l₂ with
    | nil => rfl
    | cons d t => simp at he
  | cons d₁ t₁ ih =>
    intro l₂ hd₁ hd₂ he
    cases l₂ with
    | nil => simp at he
    | cons d₂ t₂ =>
      simp only [List.map_cons, List.cons.injEq] at he
      obtain ⟨hh, ht⟩ := he
      have := alph_inj d₁ (hd₁ d₁ (by simp)) d₂ (hd₂ d₂ (by simp)) hh
      subst this
      rw [ih t₂ (fun x hx => hd₁ x (List.mem_cons_of_mem _ hx))
        (fun x hx => hd₂ x (List.mem_cons_of_mem _ hx)) ht]

theorem charsHead_ne_one (n : Nat) (hn : n < 58 ^ 64) :
    ∀ c, (((natToDigits58 64 n).reverse.map (fun d => base58Alphabet.getD d '?')).head?
      = some c) → c ≠ '1' := by
  intro c hc
  rcases Nat.eq_zero_or_pos n with h0 | h0
  · rw [h0] at hc
    simp [natToDigits58] at hc
  · obtain ⟨d, hd, hd0, hd58⟩ := natToDigits58_getLast 64 n hn h0
    rw [List.head?_map, List.head?_reverse, hd] at hc
    simp only [Option.map_some'] at hc
    injection hc with hc
    rw [← hc]
    exact alph_ne_one d hd58 hd0

theorem pubkeyToString_inj (b₁ b₂ : List Nat) (hl₁ : b₁.length = 32) (hl₂ : b₂.length = 32)
    (hb₁ : ∀ x ∈ b₁, x < 256) (hb₂ : ∀ x ∈ b₂, x < 256)
    (h : pubkeyToString b₁ = pubkeyToString b₂) : b₁ = b₂ := by
  have hn₁ : beValue b₁ < 58 ^ 64 := by
    calc beValue b₁ < 256 ^ b₁.length := beValue_lt b₁ hb₁
    _ = 256 ^ 32 := by rw [hl₁]
    _ ≤ 58 ^ 64 := by norm_num
  have hn₂ : beValue b₂ < 58 ^ 64 := by
    calc beValue b₂ < 256 ^ b₂.length := beValue_lt b₂ hb₂
    _ = 256 ^ 32 := by rw [hl₂]
    _ ≤ 58 ^ 64 := by norm_num
  simp only [pubkeyToString, hl₁, hl₂, Nat.sub_self, List.replicate, List.nil_append] at h
  have hdata := congrArg String.data h
  obtain ⟨hz, hchars⟩ := replicate_cancel '1' _ _ _ _
    (charsHead_ne_one (beValue b₁) hn₁) (charsHead_ne_one (beValue b₂) hn₂) hdata
  have hdig : natToDigits58 64 (beValue b₁) = natToDigits58 64 (beValue b₂) := by
    have hrev := map_alph_inj _ _
      (fun d hd => natToDigits58_lt 64 (beValue b₁) d (List.mem_reverse.mp hd))
      (fun d hd => natToDigits58_lt 64 (beValue b₂) d (List.mem_reverse.mp hd)) hchars
    have := congrArg List.reverse hrev
    simpa using this
  have hval : beValue b₁ = beValue b₂ := by
    have := congrArg (Nat.ofDigits 58) hdig
    rwa [ofDigits_natToDigits58 64 _ hn₁, ofDigits_natToDigits58 64 _ hn₂] at this
  exact beValue_inj b₁ b₂ (by rw [hl₁, hl₂]) hb₁ hb₂ hval

/-- Dropping past the 8-byte tag only depends on the rest of the buffer. -/
theorem drop_tag (t₁ t₂ rest : List Nat) (h₁ : t₁.length = 8) (h₂ : t₂.length = 8)
    (k : Nat) (hk : 8 ≤ k) : (t₁ ++ rest).drop k = (t₂ ++ rest).drop k := by
  obtain ⟨m, rfl⟩ : ∃ m, k = 8 + m := ⟨k - 8, by omega⟩
  have e₁ : (t₁ ++ rest).drop 8 = rest := by rw [← h₁]; exact List.drop_left _ _
  have e₂ : (t₂ ++ rest).drop 8 = rest := by rw [← h₂]; exact List.drop_left _ _
  rw [← List.drop_drop, ← List.drop_drop, e₁, e₂]

/-- A u64 read at an offset past the tag does not depend on the tag bytes. -/
theorem readBigUInt64LE_tag (t₁ t₂ rest : List Nat) (h₁ : t₁.length = 8)
    (h₂ : t₂.length = 8) (k : Nat) (hk : 8 ≤ k) :
    readBigUInt64LE (t₁ ++ rest) k = readBigUInt64LE (t₂ ++ rest) k := by
  unfold readBigUInt64LE
  rw [List.length_append, List.length_append, h₁, h₂,
    drop_tag t₁ t₂ rest h₁ h₂ k hk]

/-- A u64-array read at an offset past the tag does not depend on the tag bytes. -/
theorem readU64Array_tag (t₁ t₂ rest : List Nat) (h₁ : t₁.length = 8)
    (h₂ : t₂.length = 8) : ∀ (n k : Nat), 8 ≤ k →
    readU64Array (t₁ ++ rest) k n = readU64Array (t₂ ++ rest) k n := by
  intro n
  induction n with
  | zero => intro k _; rfl
  | succ n ih =>
    intro k hk
    unfold readU64Array
    rw [readBigUInt64LE_tag t₁ t₂ rest h₁ h₂ k hk, ih (k + 8) (by omega)]

/-- decodeBoard never looks at the 8 tag bytes. -/
theorem decodeBoard_tag (t₁ t₂ rest : List Nat) (h₁ : t₁.length = 8)
    (h₂ : t₂.length = 8) : decodeBoard (t₁ ++ rest) = decodeBoard (t₂ ++ rest) := by
  unfold decodeBoard
  rw [List.length_append, List.length_append, h₁, h₂]
  simp only [readBigUInt64LE_tag t₁ t₂ rest h₁ h₂ 8 (by omega),
    readBigUInt64LE_tag t₁ t₂ rest h₁ h₂ 16 (by omega),
    readBigUInt64LE_tag t₁ t₂ rest h₁ h₂ 24 (by omega)]

/-- decodeRound never looks at the 8 tag bytes. -/
theorem decodeRound_tag (t₁ t₂ rest : List Nat) (h₁ : t₁.length = 8)
    (h₂ : t₂.length = 8) : decodeRound (t₁ ++ rest) = decodeRound (t₂ ++ rest) := by
  unfold decodeRound
  rw [List.length_append, List.length_append, h₁, h₂]
  simp only [readBigUInt64LE_tag t₁ t₂ rest h₁ h₂ 8 (by omega),
    readBigUInt64LE_tag t₁ t₂ rest h₁ h₂ 448 (by omega),
    readBigUInt64LE_tag t₁ t₂ rest h₁ h₂ 456 (by omega),
    readBigUInt64LE_tag t₁ t₂ rest h₁ h₂ 528 (by omega),
    readBigUInt64LE_tag t₁ t₂ rest h₁ h₂ 536 (by omega),
    readBigUInt64LE_tag t₁ t₂ rest h₁ h₂ 544 (by omega),
    readBigUInt64LE_tag t₁ t₂ rest h₁ h₂ 552 (by omega),
    readU64Array_tag t₁ t₂ rest h₁ h₂ 25 16 (by omega),
    readU64Array_tag t₁ t₂ rest h₁ h₂ 25 248 (by omega),
    drop_tag t₁ t₂ rest h₁ h₂ 216 (by omega),
    drop_tag t₁ t₂ rest h₁ h₂ 464 (by omega),
    drop_tag t₁ t₂ rest h₁ h₂ 496 (by omega)]

/-- A bounds-satisfying u64 read succeeds. -/
theorem readBigUInt64LE_ok (data : List Nat) (k : Nat) (h : k + 8 ≤ data.length) :
    readBigUInt64LE data k = .ok (leValue ((data.drop k).take 8)) := by
  unfold readBigUInt64LE
  rw [if_pos h]

/-- A bounds-satisfying u64-array read succeeds. -/
theorem readU64Array_ok : ∀ (n : Nat) (data : List Nat) (k : Nat),
    k + 8 * n ≤ data.length → ∃ vs, readU64Array data k n = .ok vs := by
  intro n
  induction n with
  | zero => intro data k _; exact ⟨[], rfl⟩
  | succ n ih =>
    intro data k h
    obtain ⟨vs, hvs⟩ := ih data (k + 8) (by omega)
    refine ⟨leValue ((data.drop k).take 8) :: vs, ?_⟩
    unfold readU64Array
    rw [readBigUInt64LE_ok data k (by omega)]
    simp only [Except.bind]
    rw [hvs]

/-- An out-of-bounds u64 read raises the range error. -/
theorem readBigUInt64LE_err (data : List Nat) (k : Nat) (h : data.length < k + 8) :
    readBigUInt64LE data k = .error .rangeError := by
  unfold readBigUInt64LE
  rw [if_neg (by omega)]

/-- A u64-array read that runs past the end of the buffer raises the range error. -/
theorem readU64Array_err : ∀ (n : Nat) (data : List Nat) (k : Nat), 0 < n →
    data.length < k + 8 * n → readU64Array data k n = .error .rangeError := by
  intro n
  induction n with
  | zero => intro data k h0 _; exact absurd h0 (by omega)
  | succ n ih =>
    intro data k _ h
    unfold readU64Array
    by_cases hf : data.length < k + 8
    · rw [readBigUInt64LE_err data k hf]; rfl
    · rw [readBigUInt64LE_ok data k (by omega)]
      simp only [Except.bind]
      cases n with
      | zero => exact absurd h (by omega)
      | succ m =>
        rw [ih data (k + 8) (by omega) (by omega)]

/-- decodeBoard succeeds on any buffer of at least 32 bytes. -/
theorem decodeBoard_ok (data : List Nat) (h : 32 ≤ data.length) :
    ∃ b, decodeBoard data = .ok b := by
  unfold decodeBoard
  rw [if_neg (by omega)]
  rw [readBigUInt64LE_ok data 8 (by omega)]
  simp only [Except.bind]
  rw [readBigUInt64LE_ok data 16 (by omega)]
  simp only [Except.bind]
  rw [readBigUInt64LE_ok data 24 (by omega)]
  simp only [Except.bind]
  exact ⟨_, rfl⟩

/-- decodeRound succeeds on any buffer of at least 560 bytes. -/
theorem decodeRound_ok (data : List Nat) (h : 560 ≤ data.length) :
    ∃ r, decodeRound data = .ok r := by
  unfold decodeRound
  rw [if_neg (by omega)]
  rw [readBigUInt64LE_ok data 8 (by omega)]
  simp only [Except.bind]
  obtain ⟨vs₁, hvs₁⟩ := readU64Array_ok 25 data 16 (by omega)
  rw [hvs₁]
  simp only [Except.bind]
  obtain ⟨vs₂, hvs₂⟩ := readU64Array_ok 25 data 248 (by omega)
  rw [hvs₂]
  simp only [Except.bind]
  rw [readBigUInt64LE_ok data 448 (by omega)]
  simp only [Except.bind]
  rw [readBigUInt64LE_ok data 456 (by omega)]
  simp only [Except.bind]
  rw [readBigUInt64LE_ok data 528 (by omega)]
  simp only [Except.bind]
  rw [readBigUInt64LE_ok data 536 (by omega)]
  simp only [Except.bind]
  rw [readBigUInt64LE_ok data 544 (by omega)]
  simp only [Except.bind]
  rw [readBigUInt64LE_ok data 552 (by omega)]
  simp only [Except.bind]
  exact ⟨_, rfl⟩

/-- decodeBoard on a buffer of fewer than 8 bytes: the length guard fires. -/
theorem decodeBoard_err_short (data : List Nat) (h : data.length < 8) :
    decodeBoard data = .error (.error "Invalid Board account data") := by
  unfold decodeBoard
  rw [if_pos h]

/-- decodeRound on a buffer of fewer than 8 bytes: the length guard fires. -/
theorem decodeRound_err_short (data : List Nat) (h : data.length < 8) :
    decodeRound data = .error (.error "Invalid Round account data") := by
  unfold decodeRound
  rw [if_pos h]

/-- decodeBoard on a buffer of 8..31 bytes: some read runs out of bounds and
the result is the range error, not the invalid-data error. -/
theorem decodeBoard_err_range (data : List Nat) (h8 : 8 ≤ data.length)
    (h : data.length < 32) : decodeBoard data = .error .rangeError := by
  unfold decodeBoard
  rw [if_neg (by omega)]
  by_cases c16 : data.length < 16
  · rw [readBigUInt64LE_err data 8 (by omega)]; rfl
  · rw [readBigUInt64LE_ok data 8 (by omega)]
    simp only [Except.bind]
    by_cases c24 : data.length < 24
    · rw [readBigUInt64LE_err data 16 (by omega)]
    · rw [readBigUInt64LE_ok data 16 (by omega)]
      simp only [Except.bind]
      rw [readBigUInt64LE_err data 24 (by omega)]

/-- decodeRound on a buffer of 8..559 bytes: some read runs out of bounds and
the result is the range error, not the invalid-data error. -/
theorem decodeRound_err_range (data : List Nat) (h8 : 8 ≤ data.length)
    (h : data.length < 560) : decodeRound data = .error .rangeError := by
  unfold decodeRound
  rw [if_neg (by omega)]
  by_cases c16 : data.length < 16
  · rw [readBigUInt64LE_err data 8 (by omega)]; rfl
  · rw [readBigUInt64LE_ok data 8 (by omega)]
    simp only [Except.bind]
    by_cases c216 : data.length < 216
    · rw [readU64Array_err 25 data 16 (by omega) (by omega)]
    · obtain ⟨vs₁, hvs₁⟩ := readU64Array_ok 25 data 16 (by omega)
      rw [hvs₁]
      simp only [Except.bind]
      by_cases c448 : data.length < 448
      · rw [readU64Array_err 25 data 248 (by omega) (by omega)]
      · obtain ⟨vs₂, hvs₂⟩ := readU64Array_ok 25 data 248 (by omega)
        rw [hvs₂]
        simp only [Except.bind]
        by_cases c456 : data.length < 456
        · rw [readBigUInt64LE_err data 448 (by omega)]
        · rw [readBigUInt64LE_ok data 448 (by omega)]
          simp only [Except.bind]
          by_cases c464 : data.length < 464
          · rw [readBigUInt64LE_err data 456 (by omega)]
          · rw [readBigUInt64LE_ok data 456 (by omega)]
            simp only [Except.bind]
            by_cases c536 : data.length < 536
            · rw [readBigUInt64LE_err data 528 (by omega)]
            · rw [readBigUInt64LE_ok data 528 (by omega)]
              simp only [Except.bind]
              by_cases c544 : data.length < 544
              · rw [readBigUInt64LE_err data 536 (by omega)]
              · rw [readBigUInt64LE_ok data 536 (by omega)]
                simp only [Except.bind]
                by_cases c552 : data.length < 552
                · rw [readBigUInt64LE_err data 544 (by omega)]
                · rw [readBigUInt64LE_ok data 544 (by omega)]
                  simp only [Except.bind]
                  rw [readBigUInt64LE_err data 552 (by omega)]

/-- Claim C1: for buffers of the declared fixed length, decode reads the
fields in declared order as little-endian u64 values or fixed-size byte
blocks and recovers, bit for bit, the values written by a matching encoder,
for both record kinds.  Proved in the amended form: the Board body is 24
bytes as claimed, but the Round body the decoder actually consumes is 552
bytes (560 with the tag), not 608/616; recovery is bit-exact — the two
32-byte identity fields come back through the injective base58 rendering
(third conjunct), every other field comes back verbatim. -/
theorem C1_decode_roundtrip (tag : List Nat) (htag : tag.length = 8)
    (b : Board) (hb : b.wf) (f g : RoundFields) (hf : f.wf) (hg : g.wf) :
    decodeBoard (tag ++ encodeBoardBody b) = .ok b ∧
    decodeRound (tag ++ encodeRoundBody f) = .ok (roundView f) ∧
    (roundView f = roundView g → f = g) := by
  refine ⟨decodeBoard_encode tag htag b hb, decodeRound_encode tag htag f hf, ?_⟩
  intro hv
  obtain ⟨f1, f2, f3, f4, f5, f6, f7, f8, f9, f10, f11, f12⟩ := f
  obtain ⟨g1, g2, g3, g4, g5, g6, g7, g8, g9, g10, g11, g12⟩ := g
  obtain ⟨_, _, _, _, _, _, _, _, hf9, hf10, hf11, hf12, _, _, _, _⟩ := hf
  obtain ⟨_, _, _, _, _, _, _, _, hg9, hg10, hg11, hg12, _, _, _, _⟩ := hg
  simp only [roundView, Round.mk.injEq] at hv
  obtain ⟨e1, e2, e3, e4, e5, e6, e7, e8, e9, e10, e11, e12⟩ := hv
  simp only [RoundFields.mk.injEq]
  exact ⟨e1, e2, e3, e4, e5, e6,
    pubkeyToString_inj _ _ hf9 hg9 hf10 hg10 e7,
    pubkeyToString_inj _ _ hf11 hg11 hf12 hg12 e8, e9, e10, e11, e12⟩

/-- Closed witness for C1 at concrete inputs. -/
theorem C1_decode_roundtrip_witness :
    decodeBoard (exTag ++ encodeBoardBody exBoard) = .ok exBoard ∧
    decodeRound (exTag ++ encodeRoundBody (mkRF 8)) = .ok (roundView (mkRF 8)) :=
  ⟨(C1_decode_roundtrip exTag rfl exBoard (by decide) (mkRF 8) (mkRF 8)
      (by decide) (by decide)).1,
   (C1_decode_roundtrip exTag rfl exBoard (by decide) (mkRF 8) (mkRF 8)
      (by decide) (by decide)).2.1⟩

set_option maxRecDepth 100000 in
/-- Counterexample for C1 as stated: the child record's declared fixed
length is not 8 + 608 = 616.  The matching encoder's tagged output is 560
bytes, and bytes 560..616 of a 616-byte buffer are never read: padding the
buffer out to 616 bytes with arbitrary junk changes nothing. -/
theorem C1_counterexample :
    (exTag ++ encodeRoundBody (mkRF 8)).length = 560 ∧ (560 : Nat) ≠ 616 ∧
    decodeRound ((exTag ++ encodeRoundBody (mkRF 8)) ++ List.replicate 56 171)
      = decodeRound (exTag ++ encodeRoundBody (mkRF 8)) := by
  refine ⟨by decide, by decide, by decide⟩

/-- Claim C3, amended: publication of the snapshot pair is not atomic.  On a
fully successful tick both records are replaced by the end of the tick (first
conjunct), but the parent is published as soon as it decodes, before the
child fetch, so the third observable state of the trace pairs the new parent
with whatever child the previous tick left behind (second conjunct). -/
theorem C3_publication_not_atomic (store : Store) (s0 : AppState) (b : Board) (r : Round)
    (hb : fetchBoard store = .ok b) (hr : fetchRound store b.roundId = .ok r) :
    tickFinal store s0
      = { board := some b, round := some r, loading := false, error := none } ∧
    (tickTrace store s0).get? 2
      = some { board := some b, round := s0.round, loading := true, error := none } := by
  obtain ⟨b0, r0, l0, e0⟩ := s0
  simp only [tickFinal, tickTrace, hb, hr]
  simp [List.getLastD]

set_option maxRecDepth 100000 in
/-- Counterexample for C3 as stated: running a successful tick from a state
holding round 7's pair, the third observable state pairs the new parent
(round 8) with the stale child of round 7, which differs from the new child. -/
theorem C3_counterexample :
    (tickTrace exStoreOk exPrior).get? 2
      = some { board := some exBoard, round := some (roundView (mkRF 7)),
               loading := true, error := none } ∧
    tickFinal exStoreOk exPrior
      = { board := some exBoard, round := some (roundView (mkRF 8)),
          loading := false, error := none } ∧
    roundView (mkRF 7) ≠ roundView (mkRF 8) := by
  refine ⟨by decide, by decide, by decide⟩

set_option maxRecDepth 100000 in
/-- Closed witness for the amended C3 at concrete inputs. -/
theorem C3_publication_not_atomic_witness :
    tickFinal exStoreOk exPrior
      = { board := some exBoard, round := some (roundView (mkRF 8)),
          loading := false, error := none } ∧
    (tickTrace exStoreOk exPrior).get? 2
      = some { board := some exBoard, round := exPrior.round,
               loading := true, error := none } :=
  C3_publication_not_atomic exStoreOk exPrior exBoard (roundView (mkRF 8))
    (by decide) (by decide)

/-- Claim C4, amended: when the parent fetch or decode fails, the previously
published board and round are untouched and the separate error field records
the message; when the child fetch or decode fails, the previously published
round is untouched and the error field records the message, but the parent
has already been replaced by the newly decoded board. -/
theorem C4_failure_keeps_data (store : Store) (s0 : AppState) :
    (∀ e, fetchBoard store = .error e →
      tickFinal store s0 =
        { board := s0.board, round := s0.round, loading := false,
          error := some e.message }) ∧
    (∀ b e, fetchBoard store = .ok b → fetchRound store b.roundId = .error e →
      tickFinal store s0 =
        { board := some b, round := s0.round, loading := false,
          error := some e.message }) := by
  obtain ⟨b0, r0, l0, e0⟩ := s0
  constructor
  · intro e he
    simp only [tickFinal, tickTrace, he]
    simp [List.getLastD]
  · intro b e hb he
    simp only [tickFinal, tickTrace, hb, he]
    simp [List.getLastD]

set_option maxRecDepth 100000 in
/-- Counterexample for C4 as stated: a tick whose child fetch fails leaves
the error field set but has already replaced the published parent — the
previous snapshot is not left completely untouched. -/
theorem C4_counterexample :
    tickFinal exStoreChildFail exPrior
      = { board := some exBoard, round := some (roundView (mkRF 7)), loading := false,
          error := some "network failure" } ∧
    (tickFinal exStoreChildFail exPrior).board ≠ exPrior.board := by
  refine ⟨by decide, by decide⟩

set_option maxRecDepth 100000 in
/-- Closed witness for the amended C4 at concrete inputs. -/
theorem C4_failure_keeps_data_witness :
    tickFinal exStoreBoardFail exPrior
      = { board := exPrior.board, round := exPrior.round, loading := false,
          error := some (JsError.error "network failure").message } ∧
    tickFinal exStoreChildFail exPrior
      = { board := some exBoard, round := exPrior.round, loading := false,
          error := some (JsError.error "network failure").message } :=
  ⟨(C4_failure_keeps_data exStoreBoardFail exPrior).1 (.error "network failure") rfl,
   (C4_failure_keeps_data exStoreChildFail exPrior).2 exBoard (.error "network failure")
     (by decide) (by decide)⟩

/-- Claim C5, amended: the sync code performs no cross-check of the decoded
child id against the parent's round id.  Even when they differ, the tick
completes successfully: both records are published and no error is set. -/
theorem C5_no_crosscheck (store : Store) (s0 : AppState) (b : Board) (r : Round)
    (hb : fetchBoard store = .ok b) (hr : fetchRound store b.roundId = .ok r)
    (_hne : r.id ≠ b.roundId) :
    tickFinal store s0
      = { board := some b, round := some r, loading := false, error := none } := by
  obtain ⟨b0, r0, l0, e0⟩ := s0
  simp only [tickFinal, tickTrace, hb, hr]
  simp [List.getLastD]

set_option maxRecDepth 100000 in
/-- Counterexample for C5 as stated: with the store returning Parent with
cycleId 7 and Child with id 8, the tick does not end in any error and the
snapshot is replaced (with the mismatched child), contrary to the claim. -/
theorem C5_counterexample :
    tickFinal exStoreMismatch exPrior
      = { board := some exBoard7, round := some (roundView (mkRF 8)), loading := false,
          error := none } ∧
    (roundView (mkRF 8)).id ≠ exBoard7.roundId ∧
    (tickFinal exStoreMismatch exPrior).round ≠ exPrior.round := by
  refine ⟨by decide, by decide, by decide⟩

set_option maxRecDepth 100000 in
/-- Closed witness for the amended C5 at concrete inputs. -/
theorem C5_no_crosscheck_witness :
    tickFinal exStoreMismatch exPrior
      = { board := some exBoard7, round := some (roundView (mkRF 8)), loading := false,
          error := none } :=
  C5_no_crosscheck exStoreMismatch exPrior exBoard7 (roundView (mkRF 8))
    (by decide) (by decide) (by decide)

/-- Claim C6, amended: the page effect runs fetchData exactly once at mount
and registers no timer, so the number of fetch sequences is 1 no matter how
many timer periods elapse: there is no periodic re-fetch. -/
theorem C6_fetch_once (store : Store) (n : Nat) :
    (appAfter store n).fetchSequences = 1 := by
  induction n with
  | zero => rfl
  | succ n ih => simpa [appAfter, timerStep] using ih

/-- Counterexample for C6 as stated: after two timer periods the app has
started one fetch sequence, not three — it does not re-enter Fetching on
every timer tick. -/
theorem C6_counterexample :
    (appAfter exStoreOk 2).fetchSequences = 1 ∧
    (appAfter exStoreOk 2).fetchSequences ≠ 3 := by
  refine ⟨rfl, by simp [appAfter, timerStep, mountApp]⟩

/-- Claim C7, amended: decode fails on every buffer shorter than the actual
minimum (32 bytes for the parent, 560 — not 616 — for the child): below 8
bytes with the invalid-account-data error, and from 8 bytes up to the
minimum with the bounds-checked range error of the read primitive (the model
of Node's ERR_OUT_OF_RANGE; reads never go out of bounds silently). -/
theorem C7_short_buffer_errors (data : List Nat) :
    (data.length < 8 →
      decodeBoard data = .error (.error "Invalid Board account data") ∧
      decodeRound data = .error (.error "Invalid Round account data")) ∧
    (8 ≤ data.length → data.length < 32 → decodeBoard data = .error .rangeError) ∧
    (8 ≤ data.length → data.length < 560 → decodeRound data = .error .rangeError) :=
  ⟨fun h => ⟨decodeBoard_err_short data h, decodeRound_err_short data h⟩,
   fun h8 h => decodeBoard_err_range data h8 h,
   fun h8 h => decodeRound_err_range data h8 h⟩

set_option maxRecDepth 10000 in
/-- Closed witness for the amended C7 at concrete inputs. -/
theorem C7_short_buffer_errors_witness :
    (decodeBoard (List.replicate 3 0) = .error (.error "Invalid Board account data") ∧
     decodeRound (List.replicate 3 0) = .error (.error "Invalid Round account data")) ∧
    decodeBoard (List.replicate 20 0) = .error .rangeError ∧
    decodeRound (List.replicate 300 0) = .error .rangeError :=
  ⟨(C7_short_buffer_errors (List.replicate 3 0)).1 (by decide),
   (C7_short_buffer_errors (List.replicate 20 0)).2.1 (by decide) (by decide),
   (C7_short_buffer_errors (List.replicate 300 0)).2.2 (by decide) (by decide)⟩

set_option maxRecDepth 100000 in
/-- Counterexample for C7 as stated: a 16-byte buffer fails with the range
error, not the TooShort (invalid-data) error; and a 560-byte buffer — shorter
than the claimed 616-byte minimum — decodes successfully. -/
theorem C7_counterexample :
    decodeBoard (List.replicate 16 0) = .error .rangeError ∧
    (.error .rangeError : Except JsError Board)
      ≠ .error (.error "Invalid Board account data") ∧
    (exTag ++ encodeRoundBody (mkRF 8)).length < 616 ∧
    decodeRound (exTag ++ encodeRoundBody (mkRF 8)) = .ok (roundView (mkRF 8)) := by
  refine ⟨by decide, by decide, by decide, by decide⟩

/-- Claim C8, amended: a zero-length buffer fails with the same
invalid-account-data error as every buffer shorter than 8 bytes; decode has
no separate EmptyAccount error.  The record-does-not-exist condition is the
distinct account-not-found error raised when the store returns null, before
any decoding. -/
theorem C8_empty_buffer (data : List Nat) (store : Store) (hlen : data.length < 8)
    (hnf : store.boardAccount = .notFound) :
    decodeBoard data = .error (.error "Invalid Board account data") ∧
    decodeRound data = .error (.error "Invalid Round account data") ∧
    fetchBoard store = .error (.error "Board account not found") := by
  refine ⟨decodeBoard_err_short data hlen, decodeRound_err_short data hlen, ?_⟩
  unfold fetchBoard
  rw [hnf]

/-- Closed witness for the amended C8 at the empty buffer. -/
theorem C8_empty_buffer_witness :
    decodeBoard [] = .error (.error "Invalid Board account data") ∧
    decodeRound [] = .error (.error "Invalid Round account data") ∧
    fetchBoard exStoreNotFound = .error (.error "Board account not found") :=
  C8_empty_buffer [] exStoreNotFound (by decide) rfl

/-- Counterexample for C8 as stated: decode of the zero-length buffer yields
exactly the same error value as a nonempty short buffer, for both record
kinds — the empty case is not distinct from the wrong-length case. -/
theorem C8_counterexample :
    decodeBoard [] = .error (.error "Invalid Board account data") ∧
    decodeBoard [7] = .error (.error "Invalid Board account data") ∧
    decodeBoard [] = decodeBoard [7] ∧
    decodeRound [] = decodeRound [7] := by
  refine ⟨by decide, by decide, by decide, by decide⟩

/-- Claim C9: buffers that differ only in their 8 leading tag bytes decode
identically for both record kinds, and with a sufficiently long body any tag
value is accepted: decoding succeeds regardless of the tag's content. -/
theorem C9_tag_ignored (t₁ t₂ rest : List Nat) (h₁ : t₁.length = 8) (h₂ : t₂.length = 8) :
    decodeBoard (t₁ ++ rest) = decodeBoard (t₂ ++ rest) ∧
    decodeRound (t₁ ++ rest) = decodeRound (t₂ ++ rest) ∧
    (24 ≤ rest.length → ∃ b, decodeBoard (t₁ ++ rest) = .ok b) ∧
    (552 ≤ rest.length → ∃ r, decodeRound (t₁ ++ rest) = .ok r) := by
  refine ⟨decodeBoard_tag t₁ t₂ rest h₁ h₂, decodeRound_tag t₁ t₂ rest h₁ h₂,
    fun h => decodeBoard_ok _ ?_, fun h => decodeRound_ok _ ?_⟩
  · rw [List.length_append, h₁]; omega
  · rw [List.length_append, h₁]; omega

set_option maxRecDepth 100000 in
/-- Closed witness for C9: an all-zero tag and an all-255 tag give the same
decode results on the same body. -/
theorem C9_tag_ignored_witness :
    decodeBoard (exTag ++ encodeRoundBody (mkRF 8))
      = decodeBoard (exTag2 ++ encodeRoundBody (mkRF 8)) ∧
    decodeRound (exTag ++ encodeRoundBody (mkRF 8))
      = decodeRound (exTag2 ++ encodeRoundBody (mkRF 8)) :=
  ⟨(C9_tag_ignored exTag exTag2 (encodeRoundBody (mkRF 8)) (by decide) (by decide)).1,
   (C9_tag_ignored exTag exTag2 (encodeRoundBody (mkRF 8)) (by decide) (by decide)).2.1⟩

/-- Claim C2 (code bug): for round ids below 2^31 the seeds are the literal
label "round" followed by the 8-byte little-endian id, as the claim states;
but at id 2^31 the bitwise-and coerces the low word through signed int32 to
-2147483648 and writeUInt32LE throws a RangeError instead of serializing,
so the derivation does not implement the little-endian u64 contract for all
64-bit keys. -/
theorem C2_roundid_serialization :
    (∀ roundId : Nat, roundId < 2147483648 →
      getRoundPDASeeds roundId = .ok [roundSeed, u64le roundId]) ∧
    getRoundPDASeeds 2147483648 = .error .rangeError := by
  constructor
  · intro id hid
    have hmod : id % 4294967296 = id := Nat.mod_eq_of_lt (by omega)
    have hlow : jsToInt32 id = (id : Int) := by
      simp only [jsToInt32, hmod]
      rw [if_pos (by omega)]
    have hhigh : id / 4294967296 = 0 := Nat.div_eq_of_lt (by omega)
    simp only [getRoundPDASeeds, roundIdLEBytes, hlow, hhigh, writeUInt32LE]
    rw [if_pos (by constructor <;> omega)]
    rw [if_pos (by constructor <;> omega)]
    simp only [Except.bind]
    simp only [Int.toNat_natCast]
    simp only [u32le, u64le, List.cons_append, List.nil_append]
    norm_num
    omega
  · decide

/-- Closed witness for C2's working range at a concrete id. -/
theorem C2_roundid_serialization_witness :
    getRoundPDASeeds 5 = .ok [roundSeed, u64le 5] :=
  C2_roundid_serialization.1 5 (by decide)

/-- Claim C10: calculateTimeRemaining is clamped at zero — it never returns
a negative value, and it returns exactly 0 whenever the current slot has
reached or passed the end slot. -/
theorem C10_time_remaining (currentSlot endSlot : Int) :
    0 ≤ calculateTimeRemaining currentSlot endSlot ∧
    (endSlot ≤ currentSlot → calculateTimeRemaining currentSlot endSlot = 0) := by
  constructor
  · exact le_max_left 0 _
  · intro h
    unfold calculateTimeRemaining
    have h1 : ((endSlot - currentSlot : Int) : ℚ) ≤ 0 := by
      have : (endSlot - currentSlot : Int) ≤ 0 := by omega
      exact_mod_cast this
    have hq : ((endSlot - currentSlot : Int) : ℚ) * (2 / 5 : ℚ) ≤ 0 := by
      have := mul_le_mul_of_nonneg_right h1 (by norm_num : (0 : ℚ) ≤ 2 / 5)
      simpa using this
    have hfloor : ⌊((endSlot - currentSlot : Int) : ℚ) * (2 / 5 : ℚ)⌋ ≤ 0 := by
      have := Int.floor_le_floor hq
      simpa using this
    exact max_eq_left hfloor

/-- Closed witness for C10 at a concrete slot pair past the end. -/
theorem C10_time_remaining_witness :
    0 ≤ calculateTimeRemaining 10 3 ∧ calculateTimeRemaining 10 3 = 0 :=
  ⟨(C10_time_remaining 10 3).1, (C10_time_remaining 10 3).2 (by decide)⟩

end OreClient
